import Mathlib

/-!
Shallow embedding of the selection and pagination logic of the artwork
table component (final revision in src/src/ArtworkTable.tsx, together
with the earlier revision kept in src/unnamed/part_000).  Items are
modelled by the `Artwork` record, the identifier-set selection store by a
`Finset ℕ`, a page fetcher by a function `ℕ → Option (List Artwork)`
(`none` models a rejected fetch or a parse failure), and the stateful
callbacks by explicit state passing over `TableState`.
-/

/-- An artwork row, as mapped from the remote API response
(fields `id`, `api_link`, `title`, `artwork_type_title`). -/
structure Artwork where
  id : ℕ
  api_link : String
  title : String
  artwork_type_title : String
deriving DecidableEq

/-- Fixed page size of the remote API (`API_PAGE_SIZE = 12`). -/
def API_PAGE_SIZE : ℕ := 12

/-- Concurrency limit of the bulk fetch loop (`CONCURRENT_REQUESTS = 3`). -/
def CONCURRENT_REQUESTS : ℕ := 3

/-- Page layout event emitted by the paginator widget. -/
structure PaginatorPageState where
  first : ℕ
  rows : ℕ
  page : ℕ
  pageCount : ℕ

/-- Component state touched by the operations under study: the selected
identifier set `selectedIds` and the flat offset `first` of the first
visible row. -/
structure TableState where
  selectedIds : Finset ℕ
  first : ℕ

/-- Page count derived from the record total, as computed in the source
(`Math.ceil(totalRecords / API_PAGE_SIZE)`). -/
def pageCount (totalRecords : ℕ) : ℕ :=
  (totalRecords + API_PAGE_SIZE - 1) / API_PAGE_SIZE

/-- Pagination callback `onPageChange = (event) => setFirst(event.first)`:
the requested offset is stored as is. -/
def onPageChange (event : PaginatorPageState) (st : TableState) : TableState :=
  { st with first := event.first }

/-- Per-row checkbox handler of the earlier revision
(`handleCheckboxChange` in src/unnamed/part_000): on checking, append the
artwork unless an entry with the same id is already present; on
unchecking, drop every entry with that id. -/
def handleCheckboxChange (artwork : Artwork) (isChecked : Bool)
    (prevSelected : List Artwork) : List Artwork :=
  if isChecked then
    if prevSelected.any (fun item => item.id == artwork.id) then prevSelected
    else prevSelected ++ [artwork]
  else
    prevSelected.filter (fun item => item.id != artwork.id)

/-- Membership of an identifier in the object-list selection of the
earlier revision (`selectedArtworkIds.has(id)`). -/
def isSelectedIn (selected : List Artwork) (i : ℕ) : Prop :=
  ∃ a ∈ selected, a.id = i

instance (selected : List Artwork) (i : ℕ) : Decidable (isSelectedIn selected i) := by
  unfold isSelectedIn
  infer_instance

/-- Operation `selectAllCurrentPage`: union of the selection with the ids
of the currently loaded page
(`new Set([...selectedIds, ...currentPageIds])`). -/
def selectAllCurrentPage (artworks : List Artwork) (selectedIds : Finset ℕ) : Finset ℕ :=
  selectedIds ∪ (artworks.map Artwork.id).toFinset

/-- Operation `deselectAllCurrentPage`: keep exactly the selected ids not
on the currently loaded page
(`[...selectedIds].filter(id => !currentPageIds.has(id))`). -/
def deselectAllCurrentPage (artworks : List Artwork) (selectedIds : Finset ℕ) : Finset ℕ :=
  selectedIds.filter (fun i => i ∉ (artworks.map Artwork.id).toFinset)

/-- Inner item loop of the bulk fetch: add the ids of one fetched page to
the running set until the target count is reached
(`for (const item of data.data) { if (selectedCount >= totalToSelect) break; ... }`). -/
def addPageItems (totalToSelect : ℕ) : List Artwork → Finset ℕ → ℕ → Finset ℕ × ℕ
  | [], s, cnt => (s, cnt)
  | item :: rest, s, cnt =>
      if totalToSelect ≤ cnt then (s, cnt)
      else addPageItems totalToSelect rest (insert item.id s) (cnt + 1)

/-- Middle loop of the bulk fetch: fold the pages of one resolved batch in
batch (ascending page-index) order
(`for (const data of batchResults) ...`). -/
def addBatch (totalToSelect : ℕ) : List (List Artwork) → Finset ℕ → ℕ → Finset ℕ × ℕ
  | [], s, cnt => (s, cnt)
  | data :: rest, s, cnt =>
      if totalToSelect ≤ cnt then (s, cnt)
      else
        let r := addPageItems totalToSelect data s cnt
        addBatch totalToSelect rest r.1 r.2

/-- Result of `Promise.all` over one batch of page fetches: the page
contents in batch order iff every fetch of the batch succeeds, a
rejection (`none`) as soon as any fetch fails. -/
def fetchBatch (fetcher : ℕ → Option (List Artwork)) : List ℕ → Option (List (List Artwork))
  | [] => some []
  | p :: rest =>
      match fetcher p, fetchBatch fetcher rest with
      | some data, some datas => some (data :: datas)
      | _, _ => none

/-- Partition of the page-number list into slices of
`CONCURRENT_REQUESTS = 3` pages
(`pageNumbers.slice(i, i + CONCURRENT_REQUESTS)`). -/
def toBatches : List ℕ → List (List ℕ)
  | [] => []
  | [a] => [[a]]
  | [a, b] => [[a, b]]
  | a :: b :: c :: rest => [a, b, c] :: toBatches rest

/-- Outer loop of the bulk fetch: one iteration per batch, stopping early
once the target count is reached, aborting (`none`) when a batch fetch
fails. -/
def bulkLoop (fetcher : ℕ → Option (List Artwork)) (totalToSelect : ℕ) :
    List (List ℕ) → Finset ℕ → ℕ → Option (Finset ℕ)
  | [], s, _ => some s
  | batch :: rest, s, cnt =>
      if totalToSelect ≤ cnt then some s
      else
        match fetchBatch fetcher batch with
        | none => none
        | some datas =>
            let r := addBatch totalToSelect datas s cnt
            bulkLoop fetcher totalToSelect rest r.1 r.2

/-- Number of pages the bulk loop will request:
`Math.min(Math.ceil(totalToSelect / 12), Math.ceil(totalRecords / 12))`. -/
def pagesToFetch (totalToSelect totalRecords : ℕ) : ℕ :=
  min ((totalToSelect + API_PAGE_SIZE - 1) / API_PAGE_SIZE) (pageCount totalRecords)

/-- Whole try-block of `applyRowsPerPageAndSelect` for a positive target:
`some` of the assembled identifier set on success, `none` when some
issued fetch failed. -/
def bulkRun (fetcher : ℕ → Option (List Artwork)) (totalRecords totalToSelect : ℕ) :
    Option (Finset ℕ) :=
  bulkLoop fetcher totalToSelect
    (toBatches (List.range' 1 (pagesToFetch totalToSelect totalRecords))) ∅ 0

/-- State update performed when one bulk run completes: on success the
assembled set replaces the selection unconditionally
(`setSelectedIds(newSelectedIds)`); on failure the selection is left
alone (the catch block only logs); either way the offset is reset to the
first page (`setFirst(0)`). -/
def completeBulk (result : Option (Finset ℕ)) (st : TableState) : TableState :=
  match result with
  | some s => { selectedIds := s, first := 0 }
  | none => { st with first := 0 }

/-- Bulk-selection routine `applyRowsPerPageAndSelect` of the final
revision.  `tempRows` is the requested count after the `tempRows || 0`
coercion; a null or non-positive entry lands in the clear branch, which
empties the selection and returns early without touching the offset. -/
def applyRowsPerPageAndSelect (fetcher : ℕ → Option (List Artwork))
    (totalRecords tempRows : ℕ) (st : TableState) : TableState :=
  let totalToSelect := tempRows
  if totalToSelect ≤ 0 then { st with selectedIds := ∅ }
  else completeBulk (bulkRun fetcher totalRecords totalToSelect) st

/-- Content of 1-based page `p` of a backing collection held in canonical
order (page 1 row 1, row 2, ..., page 2 row 1, ...). -/
def pageOf (coll : List Artwork) (p : ℕ) : List Artwork :=
  (coll.drop ((p - 1) * API_PAGE_SIZE)).take API_PAGE_SIZE

/-- Fetcher over an unchanged, always-reachable backing collection. -/
def canonicalFetcher (coll : List Artwork) (p : ℕ) : Option (List Artwork) :=
  some (pageOf coll p)

/-- Responses of one batch in the order the network delivers them. -/
def collectByArrival (fetcher : ℕ → Option (List Artwork)) (arrival : List ℕ) :
    List (ℕ × Option (List Artwork)) :=
  arrival.map (fun p => (p, fetcher p))

/-- Response of page `p` among the collected responses of a batch. -/
def lookupResponse (responses : List (ℕ × Option (List Artwork))) (p : ℕ) :
    Option (List Artwork) :=
  match responses.find? (fun r => r.1 == p) with
  | some r => r.2
  | none => none

/-- Semantics of `Promise.all`: however the responses arrive, the resolved
array places each page's result at the index of that page in the request
array. -/
def promiseAll (batch : List ℕ) (responses : List (ℕ × Option (List Artwork))) :
    Option (List (List Artwork)) :=
  fetchBatch (lookupResponse responses) batch

/-- Bulk loop with an explicit arrival order for every batch. -/
def bulkLoopTimed (fetcher : ℕ → Option (List Artwork))
    (arrival : List ℕ → List ℕ) (totalToSelect : ℕ) :
    List (List ℕ) → Finset ℕ → ℕ → Option (Finset ℕ)
  | [], s, _ => some s
  | batch :: rest, s, cnt =>
      if totalToSelect ≤ cnt then some s
      else
        match promiseAll batch (collectByArrival fetcher (arrival batch)) with
        | none => none
        | some datas =>
            let r := addBatch totalToSelect datas s cnt
            bulkLoopTimed fetcher arrival totalToSelect rest r.1 r.2

/-- Bulk run with explicit arrival orders for the batches. -/
def bulkRunTimed (fetcher : ℕ → Option (List Artwork)) (arrival : List ℕ → List ℕ)
    (totalRecords totalToSelect : ℕ) : Option (Finset ℕ) :=
  bulkLoopTimed fetcher arrival totalToSelect
    (toBatches (List.range' 1 (pagesToFetch totalToSelect totalRecords))) ∅ 0

/-- Two-item sample collection used by concrete instantiations. -/
def samplePair : List Artwork :=
  [⟨1, "1", "Artwork One", "Painting"⟩, ⟨2, "2", "Artwork Two", "Print"⟩]

/-- Sample artwork with id 5. -/
def sampleA : Artwork := ⟨5, "5", "Artwork Five", "Painting"⟩

/-- Sample artwork with id 7. -/
def sampleB : Artwork := ⟨7, "7", "Artwork Seven", "Print"⟩

/-- Fetcher whose every page holds the single artwork with id 1. -/
def fetcherA : ℕ → Option (List Artwork) :=
  fun _ => some [⟨1, "1", "Artwork One", "Painting"⟩]

/-- Fetcher whose every page holds the single artwork with id 2. -/
def fetcherB : ℕ → Option (List Artwork) :=
  fun _ => some [⟨2, "2", "Artwork Two", "Print"⟩]

/-- The batch partition covers exactly the page-number list, in order. -/
theorem toBatches_flatten : ∀ l : List ℕ, (toBatches l).flatten = l
  | [] => rfl
  | [_] => rfl
  | [_, _] => rfl
  | _ :: _ :: _ :: rest => by
      simp [toBatches, toBatches_flatten rest]

/-- Closed form of the inner item loop: it adds the ids of the leading
`K - cnt` items and advances the count to `min (cnt + length) K`. -/
theorem addPageItems_eq (K : ℕ) :
    ∀ (items : List Artwork) (s : Finset ℕ) (cnt : ℕ), cnt ≤ K →
      addPageItems K items s cnt
        = (s ∪ ((items.take (K - cnt)).map Artwork.id).toFinset,
            min (cnt + items.length) K)
  | [], s, cnt, h => by
      simp [addPageItems, Nat.min_eq_left h]
  | item :: rest, s, cnt, h => by
      rcases Nat.lt_or_ge cnt K with hc | hc
      · have hrec := addPageItems_eq K rest (insert item.id s) (cnt + 1) hc
        have hKc : K - cnt = (K - (cnt + 1)) + 1 := by omega
        simp only [addPageItems, if_neg (Nat.not_le.mpr hc)]
        rw [hrec, hKc, List.take_succ_cons, Prod.mk.injEq]
        refine ⟨?_, by simp; omega⟩
        simp [Finset.union_insert, Finset.insert_union]
      · have hck : cnt = K := Nat.le_antisymm h hc
        subst hck
        simp [addPageItems]

/-- Closed form of the middle (batch) loop: it adds the ids of the leading
`K - cnt` items of the batch's concatenated pages. -/
theorem addBatch_eq (K : ℕ) :
    ∀ (datas : List (List Artwork)) (s : Finset ℕ) (cnt : ℕ), cnt ≤ K →
      addBatch K datas s cnt
        = (s ∪ ((datas.flatten.take (K - cnt)).map Artwork.id).toFinset,
            min (cnt + datas.flatten.length) K)
  | [], s, cnt, h => by
      simp [addBatch, Nat.min_eq_left h]
  | data :: rest, s, cnt, h => by
      rcases Nat.lt_or_ge cnt K with hc | hc
      · have h1 := addPageItems_eq K data s cnt h
        have h2 := addBatch_eq K rest
            (s ∪ ((data.take (K - cnt)).map Artwork.id).toFinset)
            (min (cnt + data.length) K) (Nat.min_le_right _ _)
        have hsub : K - min (cnt + data.length) K = K - cnt - data.length := by
          omega
        simp only [addBatch, if_neg (Nat.not_le.mpr hc), h1, h2, hsub,
          List.flatten_cons, List.take_append_eq_append_take, List.map_append,
          List.toFinset_append, Prod.mk.injEq]
        constructor
        · rw [Finset.union_assoc]
        · simp
          omega
      · have hck : cnt = K := Nat.le_antisymm h hc
        subst hck
        simp [addBatch]

/-- A batch fetch in which every page succeeds resolves with the page
contents in batch order. -/
theorem fetchBatch_eq_of_success (fetcher : ℕ → Option (List Artwork))
    (g : ℕ → List Artwork) :
    ∀ batch : List ℕ, (∀ p ∈ batch, fetcher p = some (g p)) →
      fetchBatch fetcher batch = some (batch.map g)
  | [], _ => rfl
  | p :: rest, h => by
      have hp : fetcher p = some (g p) := h p (List.mem_cons_self p rest)
      have hr := fetchBatch_eq_of_success fetcher g rest
        (fun q hq => h q (List.mem_cons_of_mem p hq))
      simp [fetchBatch, hp, hr]

/-- A batch fetch containing a failing page rejects. -/
theorem fetchBatch_eq_none (fetcher : ℕ → Option (List Artwork)) (f : ℕ) :
    ∀ batch : List ℕ, f ∈ batch → fetcher f = none →
      fetchBatch fetcher batch = none
  | [], hmem, _ => absurd hmem (List.not_mem_nil f)
  | p :: rest, hmem, hf => by
      rcases List.mem_cons.mp hmem with rfl | hmem'
      · simp [fetchBatch, hf]
      · have hr := fetchBatch_eq_none fetcher f rest hmem' hf
        cases hp : fetcher p <;> simp [fetchBatch, hp, hr]

/-- When every page of the batch delivers at most a page-sized item list,
the resolved batch holds at most `API_PAGE_SIZE` items per page. -/
theorem fetchBatch_length_le (fetcher : ℕ → Option (List Artwork))
    (hbound : ∀ p items, fetcher p = some items → items.length ≤ API_PAGE_SIZE) :
    ∀ (batch : List ℕ) (datas : List (List Artwork)),
      fetchBatch fetcher batch = some datas →
      datas.flatten.length ≤ API_PAGE_SIZE * batch.length
  | [], datas, h => by
      simp [fetchBatch] at h
      subst h
      simp
  | p :: rest, datas, h => by
      cases hp : fetcher p with
      | none => simp [fetchBatch, hp] at h
      | some data =>
          cases hr : fetchBatch fetcher rest with
          | none => simp [fetchBatch, hp, hr] at h
          | some ds =>
              have hd : datas = data :: ds := by
                simp [fetchBatch, hp, hr] at h
                exact h.symm
              subst hd
              have h1 := hbound p data hp
              have h2 := fetchBatch_length_le fetcher hbound rest ds hr
              simp only [List.flatten_cons, List.length_append, List.length_cons]
              have : API_PAGE_SIZE * (rest.length + 1)
                  = API_PAGE_SIZE * rest.length + API_PAGE_SIZE := by ring
              omega

/-- A bulk loop in which every remaining page fetch succeeds assembles, in
ascending page order, the leading `K - cnt` ids of the concatenated page
contents. -/
theorem bulkLoop_eq_of_success (fetcher : ℕ → Option (List Artwork))
    (g : ℕ → List Artwork) (K : ℕ) :
    ∀ (bs : List (List ℕ)) (s : Finset ℕ) (cnt : ℕ), cnt ≤ K →
      (∀ p ∈ bs.flatten, fetcher p = some (g p)) →
      bulkLoop fetcher K bs s cnt
        = some (s ∪
            (((bs.flatten.map g).flatten.take (K - cnt)).map Artwork.id).toFinset)
  | [], s, cnt, _, _ => by simp [bulkLoop]
  | batch :: rest, s, cnt, h, hall => by
      rcases Nat.lt_or_ge cnt K with hc | hc
      · have hbatch : ∀ p ∈ batch, fetcher p = some (g p) := fun p hp =>
          hall p (by simp only [List.flatten_cons, List.mem_append]; exact Or.inl hp)
        have hrest : ∀ p ∈ rest.flatten, fetcher p = some (g p) := fun p hp =>
          hall p (by simp only [List.flatten_cons, List.mem_append]; exact Or.inr hp)
        have hfb := fetchBatch_eq_of_success fetcher g batch hbatch
        have hab := addBatch_eq K (batch.map g) s cnt h
        have hrec := bulkLoop_eq_of_success fetcher g K rest
          (s ∪ (((batch.map g).flatten.take (K - cnt)).map Artwork.id).toFinset)
          (min (cnt + (batch.map g).flatten.length) K) (Nat.min_le_right _ _) hrest
        have hsub : K - min (cnt + (batch.map g).flatten.length) K
            = K - cnt - (batch.map g).flatten.length := by omega
        simp only [bulkLoop, if_neg (Nat.not_le.mpr hc), hfb, hab, hrec, hsub,
          List.flatten_cons, List.map_append, List.flatten_append,
          List.take_append_eq_append_take, List.toFinset_append, Finset.union_assoc]
      · have hck : cnt = K := Nat.le_antisymm h hc
        subst hck
        simp [bulkLoop]

/-- Pages `1..m` of a canonical collection concatenate to its leading
`m * API_PAGE_SIZE` items. -/
theorem pages_flatten (coll : List Artwork) :
    ∀ m : ℕ, ((List.range' 1 m).map (fun p => pageOf coll p)).flatten
      = coll.take (m * API_PAGE_SIZE)
  | 0 => by simp
  | m + 1 => by
      rw [List.range'_concat, List.map_append, List.flatten_append,
        pages_flatten coll m]
      have h1 : (m + 1) * API_PAGE_SIZE = m * API_PAGE_SIZE + API_PAGE_SIZE := by
        ring
      have h2 : 1 + 1 * m - 1 = m := by omega
      rw [h1, List.take_add]
      simp [pageOf, h2]

/-- Successful run of the bulk loop over a canonical backing collection:
the assembled set is exactly the ids of the collection's leading
`min K (coll.length)` items. -/
theorem bulkRun_canonical (coll : List Artwork) (K : ℕ) :
    bulkRun (canonicalFetcher coll) coll.length K
      = some (((coll.take (min K coll.length)).map Artwork.id).toFinset) := by
  unfold bulkRun
  rw [bulkLoop_eq_of_success (canonicalFetcher coll) (fun p => pageOf coll p) K
    (toBatches (List.range' 1 (pagesToFetch K coll.length))) ∅ 0 (Nat.zero_le K)
    (fun p _ => rfl)]
  rw [toBatches_flatten, pages_flatten coll (pagesToFetch K coll.length)]
  have hlist : (coll.take (pagesToFetch K coll.length * API_PAGE_SIZE)).take (K - 0)
      = coll.take (min K coll.length) := by
    rw [List.take_take, List.take_eq_take]
    simp only [pagesToFetch, pageCount, API_PAGE_SIZE]
    omega
  rw [hlist]
  simp

/-- Selection left by `applyRowsPerPageAndSelect` over a canonical backing
collection, for every requested count (clear branch included). -/
theorem apply_canonical (coll : List Artwork) (K : ℕ) (st : TableState) :
    (applyRowsPerPageAndSelect (canonicalFetcher coll) coll.length K st).selectedIds
      = ((coll.take (min K coll.length)).map Artwork.id).toFinset := by
  rcases Nat.eq_zero_or_pos K with rfl | hK
  · simp [applyRowsPerPageAndSelect]
  · simp only [applyRowsPerPageAndSelect]
    rw [if_neg (by omega), bulkRun_canonical]
    simp [completeBulk]

/-- Count bound for the inner loop: the running count grows by at most the
number of items seen. -/
theorem addPageItems_cnt_le (K : ℕ) :
    ∀ (items : List Artwork) (s : Finset ℕ) (cnt : ℕ),
      (addPageItems K items s cnt).2 ≤ cnt + items.length
  | [], s, cnt => by simp [addPageItems]
  | item :: rest, s, cnt => by
      by_cases hc : K ≤ cnt
      · simp [addPageItems, hc]
      · have hrec := addPageItems_cnt_le K rest (insert item.id s) (cnt + 1)
        simp only [addPageItems, if_neg hc, List.length_cons]
        omega

/-- Count bound for the middle loop. -/
theorem addBatch_cnt_le (K : ℕ) :
    ∀ (datas : List (List Artwork)) (s : Finset ℕ) (cnt : ℕ),
      (addBatch K datas s cnt).2 ≤ cnt + datas.flatten.length
  | [], s, cnt => by simp [addBatch]
  | data :: rest, s, cnt => by
      by_cases hc : K ≤ cnt
      · simp [addBatch, hc]
      · have h1 := addPageItems_cnt_le K data s cnt
        have h2 := addBatch_cnt_le K rest (addPageItems K data s cnt).1
          (addPageItems K data s cnt).2
        simp only [addBatch, if_neg hc, List.flatten_cons, List.length_append]
        omega

/-- A bulk loop whose remaining batches contain a failing page aborts with
`none`: real pages hold at most `API_PAGE_SIZE` items, so the running
count cannot reach the target before the failing batch is issued. -/
theorem bulkLoop_eq_none (fetcher : ℕ → Option (List Artwork)) (K f : ℕ)
    (hbound : ∀ p items, fetcher p = some items → items.length ≤ API_PAGE_SIZE)
    (hf : fetcher f = none) :
    ∀ (bs1 : List (List ℕ)) (b : List ℕ) (bs2 : List (List ℕ))
      (s : Finset ℕ) (cnt : ℕ), f ∈ b →
      cnt + API_PAGE_SIZE * bs1.flatten.length < K →
      bulkLoop fetcher K (bs1 ++ b :: bs2) s cnt = none
  | [], b, bs2, s, cnt, hfb, hcnt => by
      have hc : cnt < K := by
        simp only [List.flatten_nil, List.length_nil, Nat.mul_zero,
          Nat.add_zero] at hcnt
        exact hcnt
      simp only [List.nil_append, bulkLoop, if_neg (Nat.not_le.mpr hc),
        fetchBatch_eq_none fetcher f b hfb hf]
  | b0 :: bs1, b, bs2, s, cnt, hfb, hcnt => by
      simp only [API_PAGE_SIZE, List.flatten_cons, List.length_append] at hcnt
      have hc : cnt < K := by omega
      simp only [List.cons_append, bulkLoop, if_neg (Nat.not_le.mpr hc)]
      cases hfb0 : fetchBatch fetcher b0 with
      | none => rfl
      | some datas =>
          have hlen := fetchBatch_length_le fetcher hbound b0 datas hfb0
          have hcle := addBatch_cnt_le K datas s cnt
          simp only [API_PAGE_SIZE] at hlen
          refine bulkLoop_eq_none fetcher K f hbound hf bs1 b bs2
            (addBatch K datas s cnt).1 (addBatch K datas s cnt).2 hfb ?_
          simp only [API_PAGE_SIZE]
          omega

/-- Looked-up responses of a batch agree with the fetcher on every page
whose response actually arrived. -/
theorem lookupResponse_collect (fetcher : ℕ → Option (List Artwork)) :
    ∀ (arrival : List ℕ) (p : ℕ), p ∈ arrival →
      lookupResponse (collectByArrival fetcher arrival) p = fetcher p
  | [], p, hp => absurd hp (List.not_mem_nil p)
  | q :: rest, p, hp => by
      by_cases hqp : q = p
      · subst hqp
        simp [collectByArrival, lookupResponse, List.find?_cons_of_pos]
      · rcases List.mem_cons.mp hp with rfl | hp'
        · exact absurd rfl hqp
        · have hrec := lookupResponse_collect fetcher rest p hp'
          simp only [collectByArrival, List.map_cons] at hrec ⊢
          unfold lookupResponse
          rw [List.find?_cons_of_neg]
          · exact hrec
          · simp [hqp]

/-- Batch fetches agree when the fetchers agree on the batch's pages. -/
theorem fetchBatch_congr (f g : ℕ → Option (List Artwork)) :
    ∀ batch : List ℕ, (∀ p ∈ batch, f p = g p) →
      fetchBatch f batch = fetchBatch g batch
  | [], _ => rfl
  | p :: rest, h => by
      have hp := h p (List.mem_cons_self p rest)
      have hr := fetchBatch_congr f g rest
        (fun q hq => h q (List.mem_cons_of_mem p hq))
      simp [fetchBatch, hp, hr]

/-- Promise.all is insensitive to the order in which the responses of a
batch arrive. -/
theorem promiseAll_perm (fetcher : ℕ → Option (List Artwork))
    (arrival batch : List ℕ) (h : arrival.Perm batch) :
    promiseAll batch (collectByArrival fetcher arrival)
      = fetchBatch fetcher batch := by
  unfold promiseAll
  apply fetchBatch_congr
  intro p hp
  exact lookupResponse_collect fetcher arrival p (h.mem_iff.mpr hp)

/-- The timed bulk loop computes the same result as the untimed one for
every family of arrival orders. -/
theorem bulkLoopTimed_eq (fetcher : ℕ → Option (List Artwork))
    (arrival : List ℕ → List ℕ) (harr : ∀ b, (arrival b).Perm b) (K : ℕ) :
    ∀ (bs : List (List ℕ)) (s : Finset ℕ) (cnt : ℕ),
      bulkLoopTimed fetcher arrival K bs s cnt = bulkLoop fetcher K bs s cnt
  | [], _, _ => rfl
  | batch :: rest, s, cnt => by
      have hrec := fun s' c' => bulkLoopTimed_eq fetcher arrival harr K rest s' c'
      simp only [bulkLoopTimed, bulkLoop,
        promiseAll_perm fetcher (arrival batch) batch (harr batch)]
      by_cases hc : K ≤ cnt
      · simp [hc]
      · simp only [if_neg hc]
        cases fetchBatch fetcher batch <;> simp [hrec]

/-- The timed bulk run over a canonical collection assembles the canonical
prefix, for every family of arrival orders. -/
theorem bulkRunTimed_canonical (coll : List Artwork) (arrival : List ℕ → List ℕ)
    (harr : ∀ b, (arrival b).Perm b) (K : ℕ) :
    bulkRunTimed (canonicalFetcher coll) arrival coll.length K
      = some (((coll.take (min K coll.length)).map Artwork.id).toFinset) := by
  unfold bulkRunTimed
  rw [bulkLoopTimed_eq _ _ harr]
  exact bulkRun_canonical coll K

/-- C1: for every target count K > 0 and every page fetcher (delivering at
most a page-sized item list per page) for which some required page fetch
fails, the bulk run aborts (`replaceAll` is never called) and
`applyRowsPerPageAndSelect` leaves the selection store exactly equal to
its value before the operation started. -/
theorem bulk_failure_atomic (fetcher : ℕ → Option (List Artwork))
    (totalRecords K : ℕ) (st : TableState) (hK : 0 < K)
    (hbound : ∀ p items, fetcher p = some items → items.length ≤ API_PAGE_SIZE)
    (hfail : ∃ f, 1 ≤ f ∧ f ≤ pagesToFetch K totalRecords ∧ fetcher f = none) :
    bulkRun fetcher totalRecords K = none ∧
      (applyRowsPerPageAndSelect fetcher totalRecords K st).selectedIds
        = st.selectedIds := by
  obtain ⟨f, hf1, hf2, hfnone⟩ := hfail
  have hmem : f ∈ List.range' 1 (pagesToFetch K totalRecords) := by
    rw [List.mem_range'_1]
    omega
  have hmem2 : f ∈ (toBatches (List.range' 1 (pagesToFetch K totalRecords))).flatten := by
    rw [toBatches_flatten]
    exact hmem
  obtain ⟨b, hb, hfb⟩ := List.mem_flatten.mp hmem2
  obtain ⟨bs1, bs2, hsplit⟩ := List.append_of_mem hb
  have hrun : bulkRun fetcher totalRecords K = none := by
    unfold bulkRun
    rw [hsplit]
    apply bulkLoop_eq_none fetcher K f hbound hfnone bs1 b bs2 ∅ 0 hfb
    have hflat : bs1.flatten.length + (b.length + bs2.flatten.length)
        = pagesToFetch K totalRecords := by
      have hback := toBatches_flatten (List.range' 1 (pagesToFetch K totalRecords))
      rw [hsplit] at hback
      have hlen := congrArg List.length hback
      simpa [List.flatten_append, List.flatten_cons] using hlen
    have hbpos : 0 < b.length := List.length_pos.mpr (List.ne_nil_of_mem hfb)
    simp only [pagesToFetch, pageCount, API_PAGE_SIZE] at hflat ⊢
    omega
  refine ⟨hrun, ?_⟩
  simp only [applyRowsPerPageAndSelect]
  rw [if_neg (by omega), hrun]
  simp [completeBulk]

/-- Concrete instance of the failure-atomicity theorem: a one-page bulk
select against an always-failing fetcher keeps the prior selection. -/
theorem bulk_failure_atomic_witness :
    bulkRun (fun _ => none) 1 1 = none ∧
      (applyRowsPerPageAndSelect (fun _ => none) 1 1 ⟨{5}, 24⟩).selectedIds = {5} :=
  have h := bulk_failure_atomic (fun _ => none) 1 1 ⟨{5}, 24⟩ (by decide)
    (fun p items hsome => Option.noConfusion hsome)
    ⟨1, by decide, by decide, rfl⟩
  ⟨h.1, h.2⟩

/-- C2: over an unchanged canonical backing collection with distinct ids,
a successful bulk select of K items yields a selection of cardinality
exactly `min K totalRecords`, and the result wholesale replaces any prior
selection (it does not depend on the prior selection at all). -/
theorem bulkSelect_card_and_replacement (coll : List Artwork) (K : ℕ)
    (st st' : TableState) (hnd : (coll.map Artwork.id).Nodup) :
    (applyRowsPerPageAndSelect (canonicalFetcher coll) coll.length K st).selectedIds.card
        = min K coll.length ∧
      (applyRowsPerPageAndSelect (canonicalFetcher coll) coll.length K st).selectedIds
        = (applyRowsPerPageAndSelect (canonicalFetcher coll) coll.length K st').selectedIds := by
  constructor
  · rw [apply_canonical]
    rw [List.map_take, List.toFinset_card_of_nodup
      (List.Nodup.sublist (List.take_sublist _ _) hnd)]
    rw [List.length_take, List.length_map]
    omega
  · rw [apply_canonical, apply_canonical]

/-- Concrete instance of the cardinality/replacement theorem on a
two-item collection with two different prior selections. -/
theorem bulkSelect_card_and_replacement_witness :
    (samplePair.map Artwork.id).Nodup ∧
      ((applyRowsPerPageAndSelect (canonicalFetcher samplePair)
            samplePair.length 1 ⟨{9}, 3⟩).selectedIds.card = min 1 samplePair.length ∧
        (applyRowsPerPageAndSelect (canonicalFetcher samplePair)
            samplePair.length 1 ⟨{9}, 3⟩).selectedIds
          = (applyRowsPerPageAndSelect (canonicalFetcher samplePair)
              samplePair.length 1 ⟨∅, 0⟩).selectedIds) :=
  ⟨by decide, bulkSelect_card_and_replacement samplePair 1 ⟨{9}, 3⟩ ⟨∅, 0⟩ (by decide)⟩

/-- C3: for every K > 0 and every family of arrival orders of the batched
concurrent responses, a successful bulk select over a canonical
collection assembles exactly the ids of the first `min K totalRecords`
items in canonical collection order (ascending page index, leading items
of the threshold page only), independent of network timing. -/
theorem bulkSelect_canonical_order (coll : List Artwork) (K : ℕ) (st : TableState)
    (arrival : List ℕ → List ℕ) (hK : 0 < K) (harr : ∀ b, (arrival b).Perm b) :
    bulkRunTimed (canonicalFetcher coll) arrival coll.length K
        = some (((coll.take (min K coll.length)).map Artwork.id).toFinset)
      ∧ (applyRowsPerPageAndSelect (canonicalFetcher coll) coll.length K st).selectedIds
        = ((coll.take (min K coll.length)).map Artwork.id).toFinset :=
  ⟨bulkRunTimed_canonical coll arrival harr K, apply_canonical coll K st⟩

/-- Concrete instance of the canonical-order theorem, with the responses
of every batch arriving in reversed order. -/
theorem bulkSelect_canonical_order_witness :
    0 < 1 ∧
      (bulkRunTimed (canonicalFetcher samplePair) (fun b => b.reverse)
            samplePair.length 1
          = some (((samplePair.take (min 1 samplePair.length)).map Artwork.id).toFinset)
        ∧ (applyRowsPerPageAndSelect (canonicalFetcher samplePair)
              samplePair.length 1 ⟨∅, 0⟩).selectedIds
          = ((samplePair.take (min 1 samplePair.length)).map Artwork.id).toFinset) :=
  ⟨by decide, bulkSelect_canonical_order samplePair 1 ⟨∅, 0⟩ (fun b => b.reverse)
    (by decide) (fun b => List.reverse_perm b)⟩

/-- C4: against an unchanged canonical backing collection, the selection
produced by a bulk select of K items is a subset of the selection
produced by a bulk select of K+1 items (monotone prefix property). -/
theorem bulkSelect_monotone (coll : List Artwork) (K : ℕ) (st st' : TableState) :
    (applyRowsPerPageAndSelect (canonicalFetcher coll) coll.length K st).selectedIds
      ⊆ (applyRowsPerPageAndSelect (canonicalFetcher coll)
          coll.length (K + 1) st').selectedIds := by
  rw [apply_canonical, apply_canonical]
  intro x hx
  simp only [List.mem_toFinset, List.mem_map] at hx ⊢
  obtain ⟨a, ha, rfl⟩ := hx
  refine ⟨a, ?_, rfl⟩
  have hsub : coll.take (min K coll.length)
      = (coll.take (min (K + 1) coll.length)).take (min K coll.length) := by
    rw [List.take_take]
    congr 1
    omega
  rw [hsub] at ha
  exact List.take_subset _ _ ha

/-- C5: two successive bulk selects with the same K against the same
fetcher leave the same selection as one (the second run neither reads nor
merges the selection the first one wrote). -/
theorem bulkSelect_idempotent (fetcher : ℕ → Option (List Artwork))
    (totalRecords K : ℕ) (st : TableState) :
    (applyRowsPerPageAndSelect fetcher totalRecords K
        (applyRowsPerPageAndSelect fetcher totalRecords K st)).selectedIds
      = (applyRowsPerPageAndSelect fetcher totalRecords K st).selectedIds := by
  simp only [applyRowsPerPageAndSelect]
  by_cases hK : K ≤ 0
  · simp [hK]
  · rw [if_neg hK, if_neg hK]
    cases h : bulkRun fetcher totalRecords K <;> simp [completeBulk, h]

/-- C6: the page-level operations only ever change membership of
identifiers on the supplied page; every identifier off that page keeps
its membership, selected or not. -/
theorem page_ops_frame (artworks : List Artwork) (s : Finset ℕ) (aid : ℕ)
    (h : aid ∉ artworks.map Artwork.id) :
    (aid ∈ selectAllCurrentPage artworks s ↔ aid ∈ s) ∧
      (aid ∈ deselectAllCurrentPage artworks s ↔ aid ∈ s) := by
  constructor
  · simp [selectAllCurrentPage, List.mem_toFinset, h]
  · have h2 : ∀ x ∈ artworks, ¬ x.id = aid := by simpa using h
    simp only [deselectAllCurrentPage, Finset.mem_filter, List.mem_toFinset,
      List.mem_map, not_exists, not_and]
    constructor
    · exact fun hx => hx.1
    · exact fun hx => ⟨hx, fun x hxa hxe => h2 x hxa hxe⟩

/-- Concrete instance of the page-scoping theorem: id 7 is off the loaded
page and keeps its membership under both operations. -/
theorem page_ops_frame_witness :
    (7 : ℕ) ∉ samplePair.map Artwork.id ∧
      (((7 : ℕ) ∈ selectAllCurrentPage samplePair {1, 7} ↔ (7 : ℕ) ∈ ({1, 7} : Finset ℕ)) ∧
        ((7 : ℕ) ∈ deselectAllCurrentPage samplePair {1, 7} ↔ (7 : ℕ) ∈ ({1, 7} : Finset ℕ))) :=
  ⟨by decide, page_ops_frame samplePair {1, 7} 7 (by decide)⟩

/-- C7 counterexample: from a selection already containing id 5,
`toggle(5, true)` then `toggle(5, false)` does NOT restore the prior
membership of id 5 — it was selected before and is unselected after. -/
theorem toggle_pair_cex :
    isSelectedIn [sampleA] 5 ∧
      ¬ isSelectedIn (handleCheckboxChange sampleA false
          (handleCheckboxChange sampleA true [sampleA])) 5 := by
  decide

/-- C7 amended: `toggle(id, true)` followed by `toggle(id, false)` always
leaves `id` unselected (so it restores the prior membership of `id`
exactly when `id` was not selected before the pair) and leaves the
membership of every other identifier exactly as it was. -/
theorem toggle_pair_clears (artwork : Artwork) (prev : List Artwork) :
    ¬ isSelectedIn (handleCheckboxChange artwork false
        (handleCheckboxChange artwork true prev)) artwork.id ∧
      ∀ j, j ≠ artwork.id →
        (isSelectedIn (handleCheckboxChange artwork false
            (handleCheckboxChange artwork true prev)) j ↔ isSelectedIn prev j) := by
  have hmem : ∀ (l : List Artwork) (j : ℕ),
      isSelectedIn (handleCheckboxChange artwork false l) j
        ↔ ∃ a ∈ l, a.id = j ∧ a.id ≠ artwork.id := by
    intro l j
    simp only [handleCheckboxChange, Bool.false_eq_true, if_false, isSelectedIn,
      List.mem_filter]
    constructor
    · rintro ⟨a, ⟨hal, hane⟩, rfl⟩
      exact ⟨a, hal, rfl, by simpa using hane⟩
    · rintro ⟨a, hal, rfl, hane⟩
      exact ⟨a, ⟨hal, by simpa using hane⟩, rfl⟩
  have hsub1 : ∀ a : Artwork, a ∈ handleCheckboxChange artwork true prev →
      a ∈ prev ∨ a = artwork := by
    intro a ha
    simp only [handleCheckboxChange, if_true] at ha
    by_cases hin : (prev.any fun item => item.id == artwork.id) = true
    · rw [if_pos hin] at ha
      exact Or.inl ha
    · rw [if_neg hin] at ha
      rcases List.mem_append.mp ha with h1 | h1
      · exact Or.inl h1
      · simp only [List.mem_singleton] at h1
        exact Or.inr h1
  have hsub2 : ∀ a : Artwork, a ∈ prev →
      a ∈ handleCheckboxChange artwork true prev := by
    intro a ha
    simp only [handleCheckboxChange, if_true]
    by_cases hin : (prev.any fun item => item.id == artwork.id) = true
    · rw [if_pos hin]
      exact ha
    · rw [if_neg hin]
      exact List.mem_append.mpr (Or.inl ha)
  constructor
  · rw [hmem]
    rintro ⟨a, _, hi, hne⟩
    exact hne hi
  · intro j hj
    rw [hmem]
    constructor
    · rintro ⟨a, hal, hij, hane⟩
      rcases hsub1 a hal with h1 | rfl
      · exact ⟨a, h1, hij⟩
      · exact absurd hij.symm (by simpa using hj)
    · rintro ⟨a, hap, hij⟩
      refine ⟨a, hsub2 a hap, hij, ?_⟩
      rw [hij]
      exact hj

/-- Concrete instance of the amended toggle theorem: id 5 ends
unselected, id 7 keeps its membership. -/
theorem toggle_pair_clears_witness :
    ¬ isSelectedIn (handleCheckboxChange sampleA false
        (handleCheckboxChange sampleA true [sampleB])) sampleA.id ∧
      (isSelectedIn (handleCheckboxChange sampleA false
          (handleCheckboxChange sampleA true [sampleB])) 7 ↔ isSelectedIn [sampleB] 7) :=
  ⟨(toggle_pair_clears sampleA [sampleB]).1,
    (toggle_pair_clears sampleA [sampleB]).2 7 (by decide)⟩

/-- C8 counterexample: with 50 records (5 pages of size 12) the largest
in-range offset is 48, yet requesting offset 120 stores 120 unchanged —
`onPageChange` performs no clamping at all. -/
theorem onPageChange_cex :
    (onPageChange ⟨120, 12, 10, 5⟩ ⟨∅, 0⟩).first = 120 ∧
      ¬ (onPageChange ⟨120, 12, 10, 5⟩ ⟨∅, 0⟩).first
          ≤ max 0 (pageCount 50 - 1) * API_PAGE_SIZE := by
  decide

/-- C8 amended: `onPageChange` stores the requested offset verbatim —
an out-of-range offset is accepted without error and without clamping to
`[0, max 0 (pageCount - 1) * pageSize]` — and the selection untouched. -/
theorem onPageChange_verbatim (event : PaginatorPageState) (st : TableState) :
    (onPageChange event st).first = event.first ∧
      (onPageChange event st).selectedIds = st.selectedIds :=
  ⟨rfl, rfl⟩

/-- C9 counterexample: a bulk operation using `fetcherA` starts first but
completes last; the one using `fetcherB` started later and already wrote
`{2}`. The stale completion is applied unconditionally and overwrites the
later-started request's result with `{1}`. -/
theorem stale_bulk_overwrites_cex :
    (applyRowsPerPageAndSelect fetcherA 1 1
        (applyRowsPerPageAndSelect fetcherB 1 1 ⟨∅, 0⟩)).selectedIds = {1} ∧
      (applyRowsPerPageAndSelect fetcherB 1 1 ⟨∅, 0⟩).selectedIds = {2} ∧
      ({1} : Finset ℕ) ≠ ({2} : Finset ℕ) := by
  decide

/-- C9 amended: completions are applied unconditionally in completion
order — the completion applied last is authoritative (last completer
wins, not last starter), and a failed completion keeps the selection;
there is no sequence-number guard in the code. -/
theorem bulk_last_completion_wins (s : Finset ℕ) (st st' : TableState) :
    (completeBulk (some s) st).selectedIds = s ∧
      (completeBulk none st').selectedIds = st'.selectedIds :=
  ⟨rfl, rfl⟩

/-- C10: for every K > 0 the bulk-selection routine resets the pagination
offset to 0 on the success path and on the fetch-failure path alike. -/
theorem bulkSelect_resets_offset (fetcher : ℕ → Option (List Artwork))
    (totalRecords K : ℕ) (st : TableState) (hK : 0 < K) :
    (applyRowsPerPageAndSelect fetcher totalRecords K st).first = 0 := by
  simp only [applyRowsPerPageAndSelect]
  rw [if_neg (by omega)]
  cases bulkRun fetcher totalRecords K <;> simp [completeBulk]

/-- Concrete instance of the offset-reset theorem on the failure path. -/
theorem bulkSelect_resets_offset_witness :
    0 < 3 ∧ (applyRowsPerPageAndSelect (fun _ => none) 50 3 ⟨{7}, 24⟩).first = 0 :=
  ⟨by decide, bulkSelect_resets_offset (fun _ => none) 50 3 ⟨{7}, 24⟩ (by decide)⟩

